import Mathlib

/-!
Space-Bodies-Project, `main.cpp`.

A shallow embedding of the physical-body classes of `main.cpp` (`SpaceBody`, `Planet`,
`Asteroid`) and of the arithmetic they run on.

Every number of the program is a C++ `double`.  The type `Double` below is IEEE 754 binary64
with the default rounding mode (round to nearest, ties to even): a value is a NaN, an infinity,
a signed zero, or a finite non-zero rational, and each operation computes the exact rational
result and rounds it once.  Formulas of the specification are read in this arithmetic: an
operator in a formula is the binary64 operation and `pi` is `M_PI`.

The function `pow` of `<cmath>` is not part of the program and is not correctly rounded (glibc
2.36 returns 88559392.36000001 for `pow(9410.6, 2)`, whose rounded square is 88559392.36), so
the two methods that call it take it as a parameter; a power `x^n` of a formula is then the
call `pow(x, n)`.
-/

namespace SpaceBodies

/-! ## binary64 arithmetic -/

/-- Number of binary digits of `n`, by halving at most `fuel` times. -/
def bitLenAux : Nat → Nat → Nat
  | 0, _ => 0
  | fuel + 1, n => if n = 0 then 0 else bitLenAux fuel (n / 2) + 1

/-- Number of binary digits of `n` (`0` for `0`). -/
def bitLen (n : Nat) : Nat := bitLenAux n n

/-- The rational `2 ^ e` for an integer exponent. -/
def pow2 (e : ℤ) : ℚ :=
  if 0 ≤ e then ((2 ^ e.toNat : ℕ) : ℚ) else 1 / ((2 ^ (-e).toNat : ℕ) : ℚ)

/-- For `q > 0`, the exponent `e` with `2 ^ e ≤ q < 2 ^ (e + 1)`. -/
def floorLog2 (q : ℚ) : ℤ :=
  let k : ℤ := (bitLen q.num.natAbs : ℤ) - (bitLen q.den : ℤ)
  if pow2 k ≤ q then k else k - 1

/-- Nearest integer to `t`, a tie going to the even neighbour. -/
def rne (t : ℚ) : ℤ :=
  let f : ℤ := ⌊t⌋
  let r : ℚ := t - f
  if r < 1 / 2 then f
  else if 1 / 2 < r then f + 1
  else if f % 2 = 0 then f else f + 1

/-- Values of a C++ `double` (IEEE 754 binary64).  NaN payloads are not distinguished. -/
inductive Double where
  | nan : Double
  | inf (neg : Bool) : Double
  | zero (neg : Bool) : Double
  | fin (q : ℚ) : Double
  deriving DecidableEq

namespace Double

/-- Exponent of the unit in the last place of a positive rational `a` in binary64:
53 significant bits, never below the subnormal exponent `-1074`. -/
def ulpExp (a : ℚ) : ℤ := max (floorLog2 a - 52) (-1074)

/-- Magnitude `a ≥ 0` rounded to 53 significant bits, exponent range unbounded above. -/
def roundMag (a : ℚ) : ℚ := (rne (a / pow2 (ulpExp a)) : ℚ) * pow2 (ulpExp a)

/-- The double of sign `neg` and rounded magnitude `v`: a zero when `v = 0`, an infinity when `v`
is `2 ^ 1024` or more. -/
def ofMag (neg : Bool) (v : ℚ) : Double :=
  if v = 0 then zero neg
  else if pow2 1024 ≤ v then inf neg
  else fin (if neg = true then -v else v)

/-- Rounding of an exact result to binary64: the magnitude is rounded and the sign kept, so that
underflow gives a zero with the sign of the exact result and overflow an infinity. -/
def round (q : ℚ) : Double := ofMag (decide (q < 0)) (roundMag |q|)

/-- Sign bit. -/
def sign : Double → Bool
  | nan => false
  | inf s => s
  | zero s => s
  | fin q => decide (q < 0)

/-- Exact value of a finite double (`0` for the others). -/
def val : Double → ℚ
  | fin q => q
  | _ => 0

/-- Neither NaN nor infinite. -/
def isFinite : Double → Bool
  | zero _ => true
  | fin _ => true
  | _ => false

/-- The value is `-0.0`. -/
def isNegZero : Double → Bool
  | zero true => true
  | _ => false

/-- Sum of two finite doubles: the exact sum rounded; an exact zero sum is `+0.0` unless both
operands are `-0.0`. -/
def addFinite (x y : Double) : Double :=
  if val x + val y = 0 then zero (isNegZero x && isNegZero y) else round (val x + val y)

/-- Binary64 addition. -/
def add : Double → Double → Double
  | nan, _ => nan
  | _, nan => nan
  | inf s, inf t => if s = t then inf s else nan
  | inf s, _ => inf s
  | _, inf t => inf t
  | x, y => addFinite x y

/-- Binary64 multiplication. -/
def mul : Double → Double → Double
  | nan, _ => nan
  | _, nan => nan
  | inf _, zero _ => nan
  | zero _, inf _ => nan
  | inf s, y => inf (xor s (sign y))
  | x, inf t => inf (xor (sign x) t)
  | zero s, y => zero (xor s (sign y))
  | x, zero t => zero (xor (sign x) t)
  | fin p, fin q => round (p * q)

/-- Binary64 division. -/
def div : Double → Double → Double
  | nan, _ => nan
  | _, nan => nan
  | inf _, inf _ => nan
  | zero _, zero _ => nan
  | inf s, y => inf (xor s (sign y))
  | x, inf t => zero (xor (sign x) t)
  | zero s, y => zero (xor s (sign y))
  | x, zero t => inf (xor (sign x) t)
  | fin p, fin q => round (p / q)

/-- The comparison `x > y` of C++: false as soon as an operand is NaN, `-0.0` equal to `+0.0`. -/
def gt : Double → Double → Bool
  | nan, _ => false
  | _, nan => false
  | inf s, inf t => !s && t
  | inf s, _ => !s
  | _, inf t => t
  | x, y => decide (val y < val x)

/-- Largest `r` with `r * r ≤ n`, found bit by bit from bit `bits - 1` downwards. -/
def isqrtAux (n : Nat) : Nat → Nat → Nat
  | 0, acc => acc
  | b + 1, acc =>
    if (acc + 2 ^ b) * (acc + 2 ^ b) ≤ n then isqrtAux n b (acc + 2 ^ b) else isqrtAux n b acc

/-- Integer square root. -/
def isqrt (n : Nat) : Nat := isqrtAux n (bitLen n) 0

/-- Binary64 square root (`sqrt` of `<cmath>`, correctly rounded as IEEE 754 requires): the root
of a positive value is rounded to 53 significant bits by comparing the radicand with the square
of the midpoint between two neighbouring candidates. -/
def sqrt : Double → Double
  | nan => nan
  | inf s => if s then nan else inf false
  | zero s => zero s
  | fin q =>
    if q < 0 then nan
    else
      let u : ℤ := max (floorLog2 q / 2 - 52) (-1074)
      let t : ℚ := q / pow2 (2 * u)
      let f : ℕ := isqrt ⌊t⌋.toNat
      let mid : ℚ := ((f : ℚ) + 1 / 2) * ((f : ℚ) + 1 / 2)
      let m : ℕ := if t < mid then f else if mid < t then f + 1 else if f % 2 = 0 then f else f + 1
      fin ((m : ℚ) * pow2 u)

/-- The correctly rounded power `x ^ n` for an integer exponent `n ≥ 1`: the exact power
rounded once.  This is not the library function `pow`, which may be one unit in the last place
away from it; it agrees with `pow` where the exact power is a double (the library is accurate to
less than one unit in the last place) and serves to evaluate the methods on such inputs. -/
def powRounded (x : Double) (n : Nat) : Double :=
  match x with
  | nan => nan
  | inf s => inf (s && decide (n % 2 = 1))
  | zero s => zero (s && decide (n % 2 = 1))
  | fin q => round (q ^ n)

/-- The value is one a `double` can hold: NaN, an infinity, a zero, or a finite number that
rounding leaves unchanged. -/
def IsDouble : Double → Prop
  | fin q => round q = fin q
  | _ => True

instance (x : Double) : Decidable (IsDouble x) := by
  cases x <;> unfold IsDouble <;> infer_instance

/-- What the C standard (Annex F) fixes for `pow(x, 3)` whatever its accuracy: the cube of a zero
or of an infinity is that zero or infinity, and the cube of a double `x` that exceeds the range
(here `|x|` at least `2 ^ 1023`) overflows to the infinity of the sign of `x`. -/
def CubeSpecialCases (pow : Double → Nat → Double) : Prop :=
  (∀ s : Bool, pow (zero s) 3 = zero s) ∧ (∀ s : Bool, pow (inf s) 3 = inf s) ∧
    ∀ w : ℚ, IsDouble (fin w) → pow2 1023 ≤ |w| → pow (fin w) 3 = inf (decide (w < 0))

/-- Conversion of a decimal or integer literal of the source: the nearest double. -/
def ofRat (q : ℚ) : Double := round q

instance : Add Double := ⟨add⟩
instance : Mul Double := ⟨mul⟩
instance : Div Double := ⟨div⟩
instance (n : Nat) : OfNat Double n := ⟨ofRat n⟩
instance : OfScientific Double := ⟨fun m s e => ofRat (Rat.ofScientific m s e)⟩

end Double

/-- The constant `M_PI` of `<cmath>`. -/
def M_PI : Double := 3.14159265358979323846

/-- A `pow` that is not correctly rounded, with the two values that glibc 2.36 returns one unit
in the last place above the rounded power, `pow(9410.6, 2) = 88559392.36000001` and
`pow(1210.3500000000001, 3) = 1773098749.7178757`, and the rounded power elsewhere. -/
def Double.powObserved (x : Double) (n : Nat) : Double :=
  if x = 9410.6 ∧ n = 2 then 88559392.36000001
  else if x = 1210.3500000000001 ∧ n = 3 then 1773098749.7178757
  else Double.powRounded x n

/-! ## The classes of `main.cpp` -/

/-- Base class `SpaceBody`: the protected members `name`, `diameter` (km) and `mass` (kg). -/
structure SpaceBody where
  name : String
  diameter : Double
  mass : Double
  deriving DecidableEq

/-- The method `SpaceBody::calculateSurfaceGravity`, in m/s^2. -/
def SpaceBody.calculateSurfaceGravity (self : SpaceBody) : Double :=
  let G : Double := 6.67430e-11
  let radius_m : Double := (self.diameter * 1000) / 2.0
  (G * self.mass) / (radius_m * radius_m)

/-- Class `Planet`: a `SpaceBody` without further members. -/
structure Planet extends SpaceBody where
  deriving DecidableEq

/-- The method `Planet::calculateEscapeVelocity`, in km/s. -/
def Planet.calculateEscapeVelocity (self : Planet) : Double :=
  let G : Double := 6.67430e-11
  let radiusMeters : Double := (self.diameter * 1000) / 2.0
  let escapeVelocity_m_s : Double := Double.sqrt ((2 * G * self.mass) / radiusMeters)
  escapeVelocity_m_s / 1000.0

/-- One entry of the array `close_approach_data` of a NEO record; the velocity and the miss
distance are strings in the feed. -/
structure CloseApproach where
  close_approach_date : String
  kilometers_per_second : String
  kilometers : String
  deriving DecidableEq

/-- The fields of the `json` NEO record that the `Asteroid` constructor reads. -/
structure NeoJson where
  name : String
  id : String
  nasa_jpl_url : String
  absolute_magnitude_h : Double
  estimated_diameter_min : Double
  estimated_diameter_max : Double
  is_potentially_hazardous_asteroid : Bool
  close_approach_data : List CloseApproach
  deriving DecidableEq

/-- Class `Asteroid`: a `SpaceBody` with the private members of the class. -/
structure Asteroid extends SpaceBody where
  id : String
  nasa_jpl_url : String
  absolute_magnitude : Double
  minDiameterKm : Double
  maxDiameterKm : Double
  isDangerous : Bool
  closeApproachDate : String
  relativeVelocityKmPerS : Double
  missDistanceKm : Double
  deriving DecidableEq

namespace Asteroid

/-- The static helper `Asteroid::calculateMass`: density times the mean of the volumes of the
spheres of minimum and of maximum diameter.  The library function `pow` is a parameter. -/
def calculateMass (pow : Double → Nat → Double) (asteroidData : NeoJson) : Double :=
  let density : Double := 3000.0
  let diameterMin_m : Double := asteroidData.estimated_diameter_min * 1000.0
  let diameterMax_m : Double := asteroidData.estimated_diameter_max * 1000.0
  let radiusMin : Double := diameterMin_m / 2.0
  let radiusMax : Double := diameterMax_m / 2.0
  let volumeMin : Double := (4.0 / 3.0) * M_PI * pow radiusMin 3
  let volumeMax : Double := (4.0 / 3.0) * M_PI * pow radiusMax 3
  let avgVolume : Double := (volumeMin + volumeMax) / 2.0
  let mass : Double := density * avgVolume
  mass

/-- The constructor `Asteroid(const json&)`.  The library functions `pow` and `stod` are
parameters; the construction fails when `close_approach_data` has no first entry or `stod`
rejects a string. -/
def fromJson (pow : Double → Nat → Double) (stod : String → Option Double)
    (asteroidData : NeoJson) : Option Asteroid :=
  match asteroidData.close_approach_data with
  | [] => none
  | close_approach :: _ =>
    match stod close_approach.kilometers_per_second, stod close_approach.kilometers with
    | some velocity, some missDistance =>
      some
        { name := asteroidData.name
          diameter := asteroidData.estimated_diameter_min
          mass := calculateMass pow asteroidData
          id := asteroidData.id
          nasa_jpl_url := asteroidData.nasa_jpl_url
          absolute_magnitude := asteroidData.absolute_magnitude_h
          isDangerous := asteroidData.is_potentially_hazardous_asteroid
          minDiameterKm := asteroidData.estimated_diameter_min
          maxDiameterKm := asteroidData.estimated_diameter_max
          closeApproachDate := close_approach.close_approach_date
          relativeVelocityKmPerS := velocity
          missDistanceKm := missDistance }
    | _, _ => none

/-- The copy constructor `Asteroid(const Asteroid&)`. -/
def copy (other : Asteroid) : Asteroid :=
  { name := other.name
    diameter := other.diameter
    mass := other.mass
    id := other.id
    nasa_jpl_url := other.nasa_jpl_url
    absolute_magnitude := other.absolute_magnitude
    minDiameterKm := other.minDiameterKm
    maxDiameterKm := other.maxDiameterKm
    isDangerous := other.isDangerous
    closeApproachDate := other.closeApproachDate
    relativeVelocityKmPerS := other.relativeVelocityKmPerS
    missDistanceKm := other.missDistanceKm }

/-- The method `Asteroid::calculateImpactEnergy`, in megatons of TNT.  The library function
`pow` is a parameter. -/
def calculateImpactEnergy (self : Asteroid) (pow : Double → Nat → Double) : Double :=
  let velocity_m_s : Double := self.relativeVelocityKmPerS * 1000.0
  let energy_joules : Double := 0.5 * self.mass * pow velocity_m_s 2
  let energy_megatons : Double := energy_joules / 4.184e15
  energy_megatons

/-- The operator `Asteroid::operator+` (the combination `combine` of the specification): a copy of
the left operand whose fields are then updated one after the other. -/
def operatorPlus (self other : Asteroid) : Asteroid :=
  let c0 : Asteroid := copy self
  let c1 : Asteroid := { c0 with name := self.name ++ " & " ++ other.name }
  let c2 : Asteroid := { c1 with minDiameterKm := c1.minDiameterKm + other.minDiameterKm }
  let c3 : Asteroid := { c2 with maxDiameterKm := c2.maxDiameterKm + other.maxDiameterKm }
  let c4 : Asteroid := { c3 with mass := c3.mass + other.mass }
  let c5 : Asteroid :=
    { c4 with relativeVelocityKmPerS := c4.relativeVelocityKmPerS + other.relativeVelocityKmPerS }
  let c6 : Asteroid := { c5 with missDistanceKm := c5.missDistanceKm + other.missDistanceKm }
  { c6 with
    isDangerous :=
      Double.gt c6.minDiameterKm 280 || Double.gt c6.relativeVelocityKmPerS 5.0 }

end Asteroid


/-! ## Concrete inputs -/

/-- A `stod` that knows the decimal strings of the records below. -/
def stodTable (s : String) : Option Double :=
  if s = "3.0" then some 3.0
  else if s = "2.5" then some 2.5
  else if s = "1.0" then some 1.0
  else if s = "384400" then some 384400
  else none

/-- NEO record of asteroid A of the concrete scenario of the specification. -/
def recordA : NeoJson :=
  { name := "A", id := "1001", nasa_jpl_url := "https://ssd.jpl.nasa.gov/a",
    absolute_magnitude_h := 21.5, estimated_diameter_min := 0.2, estimated_diameter_max := 0.4,
    is_potentially_hazardous_asteroid := false,
    close_approach_data := [⟨"2024-01-01", "3.0", "384400"⟩] }

/-- NEO record of asteroid B of the concrete scenario of the specification. -/
def recordB : NeoJson :=
  { name := "B", id := "2002", nasa_jpl_url := "https://ssd.jpl.nasa.gov/b",
    absolute_magnitude_h := 22.0, estimated_diameter_min := 0.15, estimated_diameter_max := 0.3,
    is_potentially_hazardous_asteroid := true,
    close_approach_data := [⟨"2024-02-02", "2.5", "384400"⟩] }

/-- Asteroid A: what the constructor builds from `recordA` (mass 56548667764.61628 kg). -/
def scenarioA : Asteroid :=
  { name := "A", diameter := 0.2, mass := 56548667764.61628, id := "1001",
    nasa_jpl_url := "https://ssd.jpl.nasa.gov/a", absolute_magnitude := 21.5,
    minDiameterKm := 0.2, maxDiameterKm := 0.4, isDangerous := false,
    closeApproachDate := "2024-01-01", relativeVelocityKmPerS := 3.0, missDistanceKm := 384400 }

/-- Asteroid B: what the constructor builds from `recordB` (mass 23856469213.19749 kg). -/
def scenarioB : Asteroid :=
  { name := "B", diameter := 0.15, mass := 23856469213.19749, id := "2002",
    nasa_jpl_url := "https://ssd.jpl.nasa.gov/b", absolute_magnitude := 22.0,
    minDiameterKm := 0.15, maxDiameterKm := 0.3, isDangerous := true,
    closeApproachDate := "2024-02-02", relativeVelocityKmPerS := 2.5, missDistanceKm := 384400 }

/-- NEO record of a body of diameter exactly 1 km. -/
def recordUnit : NeoJson :=
  { name := "U", id := "3003", nasa_jpl_url := "https://ssd.jpl.nasa.gov/u",
    absolute_magnitude_h := 17.75, estimated_diameter_min := 1.0, estimated_diameter_max := 1.0,
    is_potentially_hazardous_asteroid := false,
    close_approach_data := [⟨"2024-03-03", "1.0", "384400"⟩] }

/-- The asteroid the constructor builds from `recordUnit`. -/
def unitAsteroid : Asteroid :=
  { name := "U", diameter := 1.0, mass := 1570796326794.8965, id := "3003",
    nasa_jpl_url := "https://ssd.jpl.nasa.gov/u", absolute_magnitude := 17.75,
    minDiameterKm := 1.0, maxDiameterKm := 1.0, isDangerous := false,
    closeApproachDate := "2024-03-03", relativeVelocityKmPerS := 1.0, missDistanceKm := 384400 }

/-- NEO record with minimum diameter 0.1 km. -/
def recordP : NeoJson :=
  { name := "P", id := "5005", nasa_jpl_url := "https://ssd.jpl.nasa.gov/p",
    absolute_magnitude_h := 22.5, estimated_diameter_min := 0.1, estimated_diameter_max := 0.2,
    is_potentially_hazardous_asteroid := false,
    close_approach_data := [⟨"2024-05-05", "3.0", "384400"⟩] }

/-- NEO record with minimum diameter 0.2 km. -/
def recordQ : NeoJson :=
  { name := "Q", id := "6006", nasa_jpl_url := "https://ssd.jpl.nasa.gov/q",
    absolute_magnitude_h := 21.0, estimated_diameter_min := 0.2, estimated_diameter_max := 0.4,
    is_potentially_hazardous_asteroid := false,
    close_approach_data := [⟨"2024-06-06", "2.5", "384400"⟩] }

/-- NEO record with minimum diameter 0.3 km. -/
def recordR : NeoJson :=
  { name := "R", id := "7007", nasa_jpl_url := "https://ssd.jpl.nasa.gov/r",
    absolute_magnitude_h := 20.0, estimated_diameter_min := 0.3, estimated_diameter_max := 0.6,
    is_potentially_hazardous_asteroid := false,
    close_approach_data := [⟨"2024-07-07", "1.0", "384400"⟩] }

/-- The asteroid the constructor builds from `recordP`. -/
def asteroidP : Asteroid :=
  { name := "P", diameter := 0.1, mass := 7068583470.577035, id := "5005",
    nasa_jpl_url := "https://ssd.jpl.nasa.gov/p", absolute_magnitude := 22.5,
    minDiameterKm := 0.1, maxDiameterKm := 0.2, isDangerous := false,
    closeApproachDate := "2024-05-05", relativeVelocityKmPerS := 3.0, missDistanceKm := 384400 }

/-- The asteroid the constructor builds from `recordQ`. -/
def asteroidQ : Asteroid :=
  { name := "Q", diameter := 0.2, mass := 56548667764.61628, id := "6006",
    nasa_jpl_url := "https://ssd.jpl.nasa.gov/q", absolute_magnitude := 21.0,
    minDiameterKm := 0.2, maxDiameterKm := 0.4, isDangerous := false,
    closeApproachDate := "2024-06-06", relativeVelocityKmPerS := 2.5, missDistanceKm := 384400 }

/-- The asteroid the constructor builds from `recordR`. -/
def asteroidR : Asteroid :=
  { name := "R", diameter := 0.3, mass := 190851753705.57993, id := "7007",
    nasa_jpl_url := "https://ssd.jpl.nasa.gov/r", absolute_magnitude := 20.0,
    minDiameterKm := 0.3, maxDiameterKm := 0.6, isDangerous := false,
    closeApproachDate := "2024-07-07", relativeVelocityKmPerS := 1.0, missDistanceKm := 384400 }

/-- NEO record of a body with both diameters 2.4207 km. -/
def recordProbe : NeoJson :=
  { name := "W", id := "8008", nasa_jpl_url := "https://ssd.jpl.nasa.gov/w",
    absolute_magnitude_h := 16.0, estimated_diameter_min := 2.4207,
    estimated_diameter_max := 2.4207, is_potentially_hazardous_asteroid := false,
    close_approach_data := [⟨"2024-08-08", "1.0", "384400"⟩] }

/-- The unit asteroid at a relative velocity of 9.4106 km/s. -/
def fastUnitAsteroid : Asteroid := { unitAsteroid with relativeVelocityKmPerS := 9.4106 }

/-- An asteroid whose five summed fields all hold `x`. -/
def uniformAsteroid (ident : String) (x : Double) : Asteroid :=
  { name := ident, diameter := x, mass := x, id := ident, nasa_jpl_url := "",
    absolute_magnitude := 20, minDiameterKm := x, maxDiameterKm := x, isDangerous := false,
    closeApproachDate := "2024-01-01", relativeVelocityKmPerS := x, missDistanceKm := x }

/-- The Earth of the planet catalogue: diameter 12742 km, mass 5.972e24 kg. -/
def earth : Planet := { name := "Earth", diameter := 12742, mass := 5.972e24 }

/-- A body with a positive but very small diameter. -/
def tinyBody : SpaceBody := { name := "tiny", diameter := 1e-170, mass := 1 }

/-- A planet with a very large diameter. -/
def hugePlanet : Planet := { name := "huge", diameter := 2e305, mass := 1e300 }

/-- NEO record of a body with both diameters zero. -/
def recordZero : NeoJson :=
  { name := "Z", id := "4004", nasa_jpl_url := "https://ssd.jpl.nasa.gov/z",
    absolute_magnitude_h := 30, estimated_diameter_min := 0, estimated_diameter_max := 0,
    is_potentially_hazardous_asteroid := false,
    close_approach_data := [⟨"2024-04-04", "1.0", "384400"⟩] }

/-! ## Predicates used by the statements -/

/-- The addition `x + y` of two finite doubles is exact: it neither overflows nor rounds. -/
def Double.ExactAdd (x y : Double) : Prop :=
  x.isFinite = true ∧ y.isFinite = true ∧ (x + y).isFinite = true ∧
    (x + y).val = x.val + y.val

instance (x y : Double) : Decidable (Double.ExactAdd x y) := by
  unfold Double.ExactAdd; infer_instance

/-- The mass that `calculateMass` derives from the asteroid's own minimum and maximum
diameters. -/
def Asteroid.estimatedMass (self : Asteroid) (pow : Double → Nat → Double) : Double :=
  Asteroid.calculateMass pow
    { name := self.name, id := self.id, nasa_jpl_url := self.nasa_jpl_url,
      absolute_magnitude_h := self.absolute_magnitude,
      estimated_diameter_min := self.minDiameterKm,
      estimated_diameter_max := self.maxDiameterKm,
      is_potentially_hazardous_asteroid := self.isDangerous,
      close_approach_data := [] }

/-! ## Powers of two and binary logarithm -/

theorem pow2_eq (e : ℤ) : pow2 e = (2 : ℚ) ^ e := by
  unfold pow2
  split_ifs with h
  · obtain ⟨n, rfl⟩ := Int.eq_ofNat_of_zero_le h
    simp
  · push_neg at h
    obtain ⟨n, hn⟩ := Int.eq_ofNat_of_zero_le (show (0 : ℤ) ≤ -e by omega)
    have he : e = -(n : ℤ) := by omega
    subst he
    simp

theorem pow2_pos (e : ℤ) : 0 < pow2 e := by
  rw [pow2_eq]; positivity

theorem pow2_ne_zero (e : ℤ) : pow2 e ≠ 0 := (pow2_pos e).ne'

theorem pow2_add (a b : ℤ) : pow2 (a + b) = pow2 a * pow2 b := by
  simp only [pow2_eq]; exact zpow_add₀ (by norm_num) a b

theorem pow2_sub (a b : ℤ) : pow2 (a - b) = pow2 a / pow2 b := by
  simp only [pow2_eq]; exact zpow_sub₀ (by norm_num) a b

theorem pow2_succ (a : ℤ) : pow2 (a + 1) = 2 * pow2 a := by
  rw [pow2_add, mul_comm]; congr 1

theorem pow2_double {a b : ℤ} (h : b = a + 1) : pow2 b = 2 * pow2 a := by
  rw [h, pow2_succ]

theorem pow2_le_pow2 {a b : ℤ} (h : a ≤ b) : pow2 a ≤ pow2 b := by
  simp only [pow2_eq]; exact zpow_le_zpow_right₀ (by norm_num) h

theorem pow2_lt_pow2 {a b : ℤ} (h : a < b) : pow2 a < pow2 b := by
  simp only [pow2_eq]; exact zpow_lt_zpow_right₀ (by norm_num) h

theorem pow2_lt_pow2_iff {a b : ℤ} : pow2 a < pow2 b ↔ a < b := by
  constructor
  · intro h
    by_contra hc
    exact absurd (pow2_le_pow2 (not_lt.mp hc)) (not_le.mpr h)
  · exact pow2_lt_pow2

theorem pow2_natCast (n : ℕ) : pow2 (n : ℤ) = ((2 ^ n : ℤ) : ℚ) := by
  rw [pow2_eq]; simp

theorem pow2_of_nonneg {e : ℤ} (h : 0 ≤ e) : pow2 e = ((2 ^ e.toNat : ℤ) : ℚ) := by
  obtain ⟨n, rfl⟩ := Int.eq_ofNat_of_zero_le h
  rw [pow2_natCast]; simp

theorem bitLenAux_zero (fuel : Nat) : bitLenAux fuel 0 = 0 := by
  cases fuel <;> simp [bitLenAux]

theorem bitLenAux_spec (fuel : Nat) : ∀ n : Nat, n ≤ fuel →
    n < 2 ^ bitLenAux fuel n ∧ (0 < n → 2 ^ bitLenAux fuel n ≤ 2 * n) := by
  induction fuel with
  | zero =>
    intro n hn
    have : n = 0 := by omega
    subst this
    simp [bitLenAux]
  | succ fuel ih =>
    intro n hn
    by_cases h0 : n = 0
    · subst h0; simp [bitLenAux]
    · have hdiv : n / 2 ≤ fuel := by omega
      obtain ⟨h1, h2⟩ := ih (n / 2) hdiv
      have hb : bitLenAux (fuel + 1) n = bitLenAux fuel (n / 2) + 1 := by
        simp [bitLenAux, h0]
      rw [hb, pow_succ]
      by_cases hh : n / 2 = 0
      · have hn1 : n = 1 := by omega
        subst hn1
        simp [bitLenAux_zero]
      · have h3 := h2 (by omega)
        generalize 2 ^ bitLenAux fuel (n / 2) = t at h1 h3
        constructor
        · omega
        · intro _; omega

theorem bitLen_spec (n : Nat) : n < 2 ^ bitLen n ∧ (0 < n → 2 ^ bitLen n ≤ 2 * n) :=
  bitLenAux_spec n n le_rfl

/-- Specification of `floorLog2`: for `q > 0`, `2 ^ floorLog2 q ≤ q < 2 ^ (floorLog2 q + 1)`. -/
theorem floorLog2_spec {q : ℚ} (hq : 0 < q) :
    pow2 (floorLog2 q) ≤ q ∧ q < pow2 (floorLog2 q + 1) := by
  have hnum : 0 < q.num := Rat.num_pos.mpr hq
  obtain ⟨n, hn⟩ := Int.eq_ofNat_of_zero_le hnum.le
  have hnpos : 0 < n := by omega
  have hna : q.num.natAbs = n := by rw [hn]; rfl
  have hden : 0 < q.den := q.den_pos
  have hqeq : q = (n : ℚ) / (q.den : ℚ) := by
    have := (Rat.num_div_den q).symm
    rw [hn] at this
    simpa using this
  unfold floorLog2
  simp only [hna]
  generalize q.den = d at hden hqeq ⊢
  obtain ⟨hn1, hn2⟩ := bitLen_spec n
  obtain ⟨hd1, hd2⟩ := bitLen_spec d
  have hn2 := hn2 hnpos
  have hd2 := hd2 hden
  have hnq1 : (n : ℚ) < 2 ^ bitLen n := by exact_mod_cast hn1
  have hnq2 : (2 : ℚ) ^ bitLen n ≤ 2 * n := by exact_mod_cast hn2
  have hdq1 : (d : ℚ) < 2 ^ bitLen d := by exact_mod_cast hd1
  have hdq2 : (2 : ℚ) ^ bitLen d ≤ 2 * d := by exact_mod_cast hd2
  have hdpos : (0 : ℚ) < d := by exact_mod_cast hden
  have hnqpos : (0 : ℚ) < n := by exact_mod_cast hnpos
  have hk : pow2 ((bitLen n : ℤ) - (bitLen d : ℤ)) = (2 : ℚ) ^ bitLen n / 2 ^ bitLen d := by
    rw [pow2_sub, pow2_eq, pow2_eq, zpow_natCast, zpow_natCast]
  generalize (2 : ℚ) ^ bitLen n = A at hnq1 hnq2 hk
  generalize (2 : ℚ) ^ bitLen d = B at hdq1 hdq2 hk
  have hB : 0 < B := lt_trans hdpos hdq1
  have hA : 0 < A := lt_trans hnqpos hnq1
  split_ifs with hc
  · refine ⟨hc, ?_⟩
    rw [pow2_succ, hk, hqeq, div_lt_iff₀ hdpos]
    have h1 : A / B * B = A := div_mul_cancel₀ A hB.ne'
    have h2 : A / B * B ≤ A / B * (2 * d) :=
      mul_le_mul_of_nonneg_left hdq2 (div_pos hA hB).le
    calc (n : ℚ) < A := hnq1
      _ = A / B * B := h1.symm
      _ ≤ A / B * (2 * d) := h2
      _ = 2 * (A / B) * d := by ring
  · push_neg at hc
    refine ⟨?_, by simpa using hc⟩
    have : pow2 ((bitLen n : ℤ) - (bitLen d : ℤ) - 1) = A / B / 2 := by
      rw [pow2_sub, hk]; congr 1
    rw [this, hqeq, div_div, div_le_div_iff₀ (by positivity) hdpos]
    have h3 : A * d ≤ 2 * n * B := mul_le_mul hnq2 hdq1.le hdpos.le (by positivity)
    linarith

theorem floorLog2_unique {q : ℚ} {e : ℤ} (h1 : pow2 e ≤ q) (h2 : q < pow2 (e + 1)) :
    floorLog2 q = e := by
  have hq : 0 < q := lt_of_lt_of_le (pow2_pos e) h1
  obtain ⟨h3, h4⟩ := floorLog2_spec hq
  have ha : e < floorLog2 q + 1 := pow2_lt_pow2_iff.mp (lt_of_le_of_lt h1 h4)
  have hb : floorLog2 q < e + 1 := pow2_lt_pow2_iff.mp (lt_of_le_of_lt h3 h2)
  omega

theorem floorLog2_two_mul {q : ℚ} (hq : 0 < q) : floorLog2 (2 * q) = floorLog2 q + 1 := by
  obtain ⟨h3, h4⟩ := floorLog2_spec hq
  apply floorLog2_unique
  · rw [pow2_succ]; linarith
  · rw [pow2_succ]; linarith

theorem floorLog2_lt_of_lt {q : ℚ} {e : ℤ} (hq : 0 < q) (h : q < pow2 e) : floorLog2 q < e :=
  pow2_lt_pow2_iff.mp (lt_of_le_of_lt (floorLog2_spec hq).1 h)

theorem le_floorLog2_of_le {q : ℚ} {e : ℤ} (h : pow2 e ≤ q) : e ≤ floorLog2 q := by
  have hq : 0 < q := lt_of_lt_of_le (pow2_pos e) h
  have := pow2_lt_pow2_iff.mp (lt_of_le_of_lt h (floorLog2_spec hq).2)
  omega

/-! ## Rounding to the nearest integer -/

theorem rne_intCast (z : ℤ) : rne (z : ℚ) = z := by
  unfold rne
  simp

theorem floor_le_rne (t : ℚ) : ⌊t⌋ ≤ rne t := by
  unfold rne
  simp only
  split_ifs <;> omega

theorem rne_le_floor_succ (t : ℚ) : rne t ≤ ⌊t⌋ + 1 := by
  unfold rne
  simp only
  split_ifs <;> omega

theorem le_rne_of_intCast_le {n : ℤ} {t : ℚ} (h : (n : ℚ) ≤ t) : n ≤ rne t :=
  le_trans (Int.le_floor.mpr h) (floor_le_rne t)

theorem rne_le_of_le_intCast {n : ℤ} {t : ℚ} (h : t ≤ (n : ℚ)) : rne t ≤ n := by
  by_cases hf : t - (⌊t⌋ : ℚ) < 1 / 2
  · have : rne t = ⌊t⌋ := by unfold rne; simp only; rw [if_pos hf]
    rw [this]
    exact_mod_cast le_trans (Int.floor_le t) h
  · have hlt : (⌊t⌋ : ℚ) < t := by linarith
    have : ⌊t⌋ < n := by exact_mod_cast lt_of_lt_of_le hlt h
    have := rne_le_floor_succ t
    omega

theorem rne_nonneg {t : ℚ} (h : 0 ≤ t) : 0 ≤ rne t :=
  le_rne_of_intCast_le (by simpa using h)

/-- The nearest integer is at most one half away. -/
theorem abs_rne_sub_le (t : ℚ) : |(rne t : ℚ) - t| ≤ 1 / 2 := by
  have h1 : (⌊t⌋ : ℚ) ≤ t := Int.floor_le t
  have h2 : t < (⌊t⌋ : ℚ) + 1 := Int.lt_floor_add_one t
  unfold rne
  simp only
  split_ifs with ha hb hc
  · rw [abs_le]; constructor <;> linarith
  · rw [abs_le]; push_cast; constructor <;> linarith
  · rw [abs_le]; constructor <;> linarith
  · rw [abs_le]; push_cast; constructor <;> linarith

/-! ## Rounding a magnitude to 53 bits -/

namespace Double

theorem ulpExp_ge (a : ℚ) : -1074 ≤ ulpExp a := le_max_right _ _

theorem floorLog2_sub_le_ulpExp (a : ℚ) : floorLog2 a - 52 ≤ ulpExp a := le_max_left _ _

theorem roundMag_eq_self_of_int {a : ℚ} {z : ℤ} (h : a / pow2 (ulpExp a) = (z : ℚ)) :
    roundMag a = a := by
  unfold roundMag
  rw [h, rne_intCast, ← h, div_mul_cancel₀ _ (pow2_ne_zero _)]

theorem roundMag_zero : roundMag 0 = 0 := by
  unfold roundMag
  have : (0 : ℚ) / pow2 (ulpExp 0) = ((0 : ℤ) : ℚ) := by simp
  rw [this, rne_intCast]; simp

theorem roundMag_nonneg {a : ℚ} (h : 0 ≤ a) : 0 ≤ roundMag a := by
  unfold roundMag
  have h1 : 0 ≤ rne (a / pow2 (ulpExp a)) := rne_nonneg (div_nonneg h (pow2_pos _).le)
  have h2 : (0 : ℚ) ≤ (rne (a / pow2 (ulpExp a)) : ℚ) := by exact_mod_cast h1
  exact mul_nonneg h2 (pow2_pos _).le

/-- Rounding moves a magnitude by at most half a unit in the last place. -/
theorem abs_roundMag_sub_le (a : ℚ) : |roundMag a - a| ≤ pow2 (ulpExp a) / 2 := by
  have hP := pow2_pos (ulpExp a)
  have h := abs_rne_sub_le (a / pow2 (ulpExp a))
  have he : roundMag a - a =
      ((rne (a / pow2 (ulpExp a)) : ℚ) - a / pow2 (ulpExp a)) * pow2 (ulpExp a) := by
    unfold roundMag
    rw [sub_mul, div_mul_cancel₀ _ hP.ne']
  rw [he, abs_mul, abs_of_pos hP]
  calc |(rne (a / pow2 (ulpExp a)) : ℚ) - a / pow2 (ulpExp a)| * pow2 (ulpExp a)
      ≤ 1 / 2 * pow2 (ulpExp a) := mul_le_mul_of_nonneg_right h hP.le
    _ = pow2 (ulpExp a) / 2 := by ring

/-- Scaling by two commutes with rounding above the subnormal range. -/
theorem roundMag_two_mul {a : ℚ} (ha : 0 < a) (hn : -1074 ≤ floorLog2 a - 52) :
    roundMag (2 * a) = 2 * roundMag a := by
  have hu : ulpExp a = floorLog2 a - 52 := max_eq_left hn
  have hu2 : ulpExp (2 * a) = ulpExp a + 1 := by
    rw [hu]
    unfold ulpExp
    rw [floorLog2_two_mul ha, max_eq_left (by omega)]
    omega
  unfold roundMag
  rw [hu2, pow2_succ]
  have h : 2 * a / (2 * pow2 (ulpExp a)) = a / pow2 (ulpExp a) :=
    mul_div_mul_left a (pow2 (ulpExp a)) (by norm_num)
  rw [h]; ring

theorem pow2_ulpExp_le {a : ℚ} (ha : 0 < a) (h : -1074 < ulpExp a) : pow2 (ulpExp a) ≤ a := by
  have hu : ulpExp a = floorLog2 a - 52 := by
    unfold ulpExp at h ⊢
    rcases max_cases (floorLog2 a - 52) (-1074) with ⟨h1, _⟩ | ⟨h1, _⟩
    · exact h1
    · rw [h1] at h; omega
  rw [hu]
  exact le_trans (pow2_le_pow2 (by omega)) (floorLog2_spec ha).1

/-- Rounding never drops below a power of two that the magnitude reaches. -/
theorem pow2_le_roundMag {a : ℚ} {k : ℤ} (hk : -1074 ≤ k) (h : pow2 k ≤ a) :
    pow2 k ≤ roundMag a := by
  have ha : 0 < a := lt_of_lt_of_le (pow2_pos k) h
  have key : ∀ j : ℤ, ulpExp a ≤ j → pow2 j ≤ a → pow2 j ≤ roundMag a := by
    intro j hj hja
    have h1 : pow2 (j - ulpExp a) ≤ a / pow2 (ulpExp a) := by
      rw [pow2_sub]
      exact div_le_div_of_nonneg_right hja (pow2_pos _).le
    rw [pow2_of_nonneg (show 0 ≤ j - ulpExp a by omega)] at h1
    have h2 := le_rne_of_intCast_le h1
    have h3 : ((2 ^ (j - ulpExp a).toNat : ℤ) : ℚ) ≤ (rne (a / pow2 (ulpExp a)) : ℚ) := by
      exact_mod_cast h2
    have h4 : pow2 j = ((2 ^ (j - ulpExp a).toNat : ℤ) : ℚ) * pow2 (ulpExp a) := by
      rw [← pow2_of_nonneg (by omega), ← pow2_add]; congr 1; omega
    unfold roundMag
    rw [h4]
    exact mul_le_mul_of_nonneg_right h3 (pow2_pos _).le
  by_cases hc : ulpExp a ≤ k
  · exact key k hc h
  · push_neg at hc
    have h5 : pow2 (ulpExp a) ≤ a := pow2_ulpExp_le ha (by omega)
    exact le_trans (pow2_le_pow2 hc.le) (key _ le_rfl h5)

/-- Rounding never exceeds a power of two that bounds the magnitude. -/
theorem roundMag_le_pow2 {a : ℚ} {k : ℤ} (ha : 0 < a) (hk : -1074 ≤ k) (h : a ≤ pow2 k) :
    roundMag a ≤ pow2 k := by
  have hu : ulpExp a ≤ k := by
    unfold ulpExp
    apply max_le _ hk
    have := floorLog2_lt_of_lt ha (lt_of_le_of_lt h (pow2_lt_pow2 (show k < k + 1 by omega)))
    omega
  have h1 : a / pow2 (ulpExp a) ≤ pow2 (k - ulpExp a) := by
    rw [pow2_sub]
    exact div_le_div_of_nonneg_right h (pow2_pos _).le
  rw [pow2_of_nonneg (show 0 ≤ k - ulpExp a by omega)] at h1
  have h2 := rne_le_of_le_intCast h1
  have h3 : (rne (a / pow2 (ulpExp a)) : ℚ) ≤ ((2 ^ (k - ulpExp a).toNat : ℤ) : ℚ) := by
    exact_mod_cast h2
  have h4 : pow2 k = ((2 ^ (k - ulpExp a).toNat : ℤ) : ℚ) * pow2 (ulpExp a) := by
    rw [← pow2_of_nonneg (by omega), ← pow2_add]; congr 1; omega
  unfold roundMag
  rw [h4]
  exact mul_le_mul_of_nonneg_right h3 (pow2_pos _).le

/-- A positive multiple `m * 2 ^ u` of a power of two, `u` at least the exponent of its unit in
the last place, is left unchanged by rounding. -/
theorem roundMag_eq_self_of_mul {w : ℚ} {m u : ℤ} (hw : w = (m : ℚ) * pow2 u)
    (hu : ulpExp w ≤ u) : roundMag w = w := by
  subst hw
  have h : (m : ℚ) * pow2 u / pow2 (ulpExp ((m : ℚ) * pow2 u)) =
      ((m * 2 ^ (u - ulpExp ((m : ℚ) * pow2 u)).toNat : ℤ) : ℚ) := by
    rw [mul_div_assoc, ← pow2_sub,
      pow2_of_nonneg (show 0 ≤ u - ulpExp ((m : ℚ) * pow2 u) by omega)]
    push_cast; ring
  exact roundMag_eq_self_of_int h

/-- Rounding is idempotent. -/
theorem roundMag_idem {a : ℚ} (ha : 0 ≤ a) : roundMag (roundMag a) = roundMag a := by
  rcases ha.eq_or_lt with h0 | hpos
  · rw [← h0, roundMag_zero, roundMag_zero]
  have hM0 : 0 ≤ rne (a / pow2 (ulpExp a)) := rne_nonneg (div_nonneg ha (pow2_pos _).le)
  have hlt : a / pow2 (ulpExp a) < pow2 53 := by
    rw [div_lt_iff₀ (pow2_pos _), ← pow2_add]
    refine lt_of_lt_of_le (floorLog2_spec hpos).2 (pow2_le_pow2 ?_)
    have := floorLog2_sub_le_ulpExp a
    omega
  have hM53 : rne (a / pow2 (ulpExp a)) ≤ 2 ^ 53 := by
    apply rne_le_of_le_intCast
    have : pow2 53 = (((2 : ℤ) ^ 53 : ℤ) : ℚ) := by rw [pow2_eq]; norm_num
    rw [← this]; exact hlt.le
  have hw : roundMag a = (rne (a / pow2 (ulpExp a)) : ℚ) * pow2 (ulpExp a) := rfl
  have hu : -1074 ≤ ulpExp a := ulpExp_ge a
  generalize rne (a / pow2 (ulpExp a)) = M at hM0 hM53 hw
  generalize ulpExp a = u at hw hu
  rw [hw]
  rcases hM0.eq_or_lt with hz | hMpos
  · rw [← hz]; simp [roundMag_zero]
  have hwpos : 0 < (M : ℚ) * pow2 u :=
    mul_pos (by exact_mod_cast hMpos) (pow2_pos u)
  rcases hM53.eq_or_lt with h53 | hlt53
  · have hP : (M : ℚ) * pow2 u = pow2 (u + 53) := by
      rw [h53, pow2_add, mul_comm]; congr 1
    have hfl : floorLog2 ((M : ℚ) * pow2 u) = u + 53 := by
      apply floorLog2_unique
      · rw [hP]
      · rw [hP]; exact pow2_lt_pow2 (by omega)
    have hue : ulpExp ((M : ℚ) * pow2 u) = u + 1 := by
      unfold ulpExp; rw [hfl, max_eq_left (by omega)]; omega
    have h : (M : ℚ) * pow2 u / pow2 (ulpExp ((M : ℚ) * pow2 u)) = (((2 : ℤ) ^ 52 : ℤ) : ℚ) := by
      rw [hue, hP, ← pow2_sub, pow2_eq]
      have : u + 53 - (u + 1) = 52 := by omega
      rw [this]; norm_num
    exact roundMag_eq_self_of_int h
  · apply roundMag_eq_self_of_mul rfl
    have hlt2 : (M : ℚ) * pow2 u < pow2 (u + 53) := by
      rw [pow2_add, mul_comm (pow2 u)]
      apply mul_lt_mul_of_pos_right _ (pow2_pos u)
      have : pow2 53 = (((2 : ℤ) ^ 53 : ℤ) : ℚ) := by rw [pow2_eq]; norm_num
      rw [this]; exact_mod_cast hlt53
    have := floorLog2_lt_of_lt hwpos hlt2
    unfold ulpExp
    exact max_le (by omega) hu

/-- A rounded magnitude is a whole multiple of `2 ^ (-1074)`. -/
theorem roundMag_div_min (a : ℚ) : ∃ z : ℤ, roundMag a / pow2 (-1074) = (z : ℚ) := by
  refine ⟨rne (a / pow2 (ulpExp a)) * 2 ^ (ulpExp a - (-1074)).toNat, ?_⟩
  unfold roundMag
  have hu := ulpExp_ge a
  rw [mul_div_assoc, ← pow2_sub, pow2_of_nonneg (show 0 ≤ ulpExp a - (-1074) by omega)]
  push_cast; ring

/-- A positive rounded magnitude is at least the smallest subnormal `2 ^ (-1074)`. -/
theorem pow2_min_le_of_roundMag_eq {a : ℚ} (ha : 0 < a) (h : roundMag a = a) :
    pow2 (-1074) ≤ a := by
  obtain ⟨z, hz⟩ := roundMag_div_min a
  rw [h] at hz
  have hpos : (0 : ℚ) < z := by rw [← hz]; exact div_pos ha (pow2_pos _)
  have hz1 : (1 : ℤ) ≤ z := by
    have : (0 : ℤ) < z := by exact_mod_cast hpos
    omega
  have : (1 : ℚ) ≤ a / pow2 (-1074) := by rw [hz]; exact_mod_cast hz1
  rwa [le_div_iff₀ (pow2_pos _), one_mul] at this

end Double

/-! ## Rounding to a double -/

namespace Double

theorem hMul_eq (x y : Double) : x * y = Double.mul x y := rfl

theorem hDiv_eq (x y : Double) : x / y = Double.div x y := rfl

theorem round_mul_pos (q : ℚ) {c : ℚ} (hc : 0 < c) :
    round (q * c) = ofMag (decide (q < 0)) (roundMag (|q| * c)) := by
  unfold round
  rw [abs_mul, abs_of_pos hc]
  congr 1
  have : q * c < 0 ↔ q < 0 := by
    constructor
    · intro h
      by_contra hq
      exact absurd (mul_nonneg (not_lt.mp hq) hc.le) (not_le.mpr h)
    · intro h; exact mul_neg_of_neg_of_pos h hc
  simp only [this]

theorem round_signed (s : Bool) {v : ℚ} (hv : 0 < v) :
    round (if s = true then -v else v) = ofMag s (roundMag v) := by
  unfold round
  cases s
  · have h : ¬ v < 0 := not_lt.mpr hv.le
    simp [abs_of_pos hv, h]
  · have h : -v < 0 := by linarith
    simp [abs_of_pos hv, hv]

theorem ofMag_of_lt (s : Bool) {v : ℚ} (h0 : v ≠ 0) (h1 : v < pow2 1024) :
    ofMag s v = fin (if s = true then -v else v) := by
  unfold ofMag
  rw [if_neg h0, if_neg (not_le.mpr h1)]

theorem ofMag_of_ge (s : Bool) {v : ℚ} (h1 : pow2 1024 ≤ v) : ofMag s v = inf s := by
  unfold ofMag
  rw [if_neg (lt_of_lt_of_le (pow2_pos _) h1).ne', if_pos h1]

/-- What it means for a finite value to be a double. -/
theorem IsDouble.fin_spec {q : ℚ} (h : IsDouble (fin q)) :
    q ≠ 0 ∧ roundMag |q| = |q| ∧ |q| < pow2 1024 := by
  have h : round q = fin q := h
  unfold round ofMag at h
  by_cases h1 : roundMag |q| = 0
  · rw [if_pos h1] at h; cases h
  rw [if_neg h1] at h
  by_cases h2 : pow2 1024 ≤ roundMag |q|
  · rw [if_pos h2] at h; cases h
  rw [if_neg h2] at h
  have hq : (if decide (q < 0) = true then -roundMag |q| else roundMag |q|) = q := by
    injection h
  have hv : roundMag |q| = |q| := by
    by_cases hneg : q < 0
    · simp only [hneg, decide_True, if_true] at hq
      rw [abs_of_neg hneg] at hq ⊢
      linarith
    · simp only [hneg, decide_False, Bool.false_eq_true, if_false] at hq
      rw [abs_of_nonneg (not_lt.mp hneg)] at hq ⊢
      exact hq
  refine ⟨?_, hv, ?_⟩
  · intro h0
    rw [h0, abs_zero] at h1
    exact h1 roundMag_zero
  · rw [← hv]; exact not_le.mp h2

theorem isDouble_ofMag (s : Bool) {v : ℚ} (h0 : 0 ≤ v) (hv : roundMag v = v) :
    IsDouble (ofMag s v) := by
  by_cases hz : v = 0
  · unfold ofMag; rw [if_pos hz]; trivial
  by_cases hb : pow2 1024 ≤ v
  · rw [ofMag_of_ge s hb]; trivial
  · have hpos : 0 < v := lt_of_le_of_ne h0 (Ne.symm hz)
    rw [ofMag_of_lt s hz (not_le.mp hb)]
    show round _ = _
    rw [round_signed s hpos, hv, ofMag_of_lt s hz (not_le.mp hb)]

theorem isDouble_round (q : ℚ) : IsDouble (round q) :=
  isDouble_ofMag _ (roundMag_nonneg (abs_nonneg q)) (roundMag_idem (abs_nonneg q))

theorem isDouble_mul (x y : Double) : IsDouble (x * y) := by
  rw [hMul_eq]
  cases x <;> cases y <;> simp only [Double.mul] <;> first | trivial | exact isDouble_round _

theorem isDouble_div (x y : Double) : IsDouble (x / y) := by
  rw [hDiv_eq]
  cases x <;> cases y <;> simp only [Double.div] <;> first | trivial | exact isDouble_round _

theorem isDouble_add (x y : Double) : IsDouble (x + y) := by
  have hf : ∀ u v : Double, IsDouble (addFinite u v) := by
    intro u v
    unfold addFinite
    split_ifs
    · trivial
    · exact isDouble_round _
  show IsDouble (Double.add x y)
  cases x <;> cases y <;> simp only [Double.add] <;>
    first | trivial | exact hf _ _ | (split_ifs <;> trivial)

theorem isDouble_powRounded (x : Double) (n : Nat) : IsDouble (powRounded x n) := by
  cases x <;> simp only [powRounded] <;> first | trivial | exact isDouble_round _

theorem isqrtAux_spec (n : Nat) : ∀ b acc : Nat, acc * acc ≤ n →
    n < (acc + 2 ^ b) * (acc + 2 ^ b) →
    isqrtAux n b acc * isqrtAux n b acc ≤ n ∧
      n < (isqrtAux n b acc + 1) * (isqrtAux n b acc + 1) := by
  intro b
  induction b with
  | zero => intro acc h1 h2; exact ⟨h1, by simpa [isqrtAux] using h2⟩
  | succ b ih =>
    intro acc h1 h2
    unfold isqrtAux
    split_ifs with h
    · apply ih _ h
      have : acc + 2 ^ b + 2 ^ b = acc + 2 ^ (b + 1) := by rw [pow_succ]; ring
      rw [this]; exact h2
    · exact ih _ h1 (not_le.mp h)

/-- The integer square root is the floor of the square root. -/
theorem isqrt_spec (n : Nat) :
    isqrt n * isqrt n ≤ n ∧ n < (isqrt n + 1) * (isqrt n + 1) := by
  apply isqrtAux_spec n (bitLen n) 0 (Nat.zero_le _)
  have h1 := (bitLen_spec n).1
  have h2 : 1 ≤ 2 ^ bitLen n := Nat.one_le_two_pow
  calc n < 2 ^ bitLen n := h1
    _ = 2 ^ bitLen n * 1 := (Nat.mul_one _).symm
    _ ≤ 2 ^ bitLen n * 2 ^ bitLen n := Nat.mul_le_mul_left _ h2
    _ = (0 + 2 ^ bitLen n) * (0 + 2 ^ bitLen n) := by rw [Nat.zero_add]

theorem lit_1000_fin : (1000 : Double) = fin 1000 := by decide!

theorem lit_500_fin : (500 : Double) = fin 500 := by decide!

theorem lit_2_fin : (2 : Double) = fin 2 := by decide!

theorem lit_3000_fin : (3000 : Double) = fin 3000 := by decide!

/-- Halving the rounded thousandfold of a double magnitude rounds to the same value as the
five-hundredfold. -/
theorem roundMag_half_thousand {a : ℚ} (ha : 0 < a) (hr : roundMag a = a) :
    roundMag (roundMag (a * 1000) / 2) = roundMag (a * 500) := by
  have h500 : 0 < a * 500 := by positivity
  have he : a * 1000 = 2 * (a * 500) := by ring
  by_cases hn : pow2 (-1022) ≤ a * 500
  · have hfl : -1022 ≤ floorLog2 (a * 500) := le_floorLog2_of_le hn
    rw [he, roundMag_two_mul h500 (by omega), mul_div_cancel_left₀ _ (by norm_num),
      roundMag_idem h500.le]
  · push_neg at hn
    have hlt : a * 1000 < pow2 (-1021) := by
      have : pow2 (-1021) = 2 * pow2 (-1022) := pow2_double (by norm_num)
      rw [this, he]; linarith
    have hfl := floorLog2_lt_of_lt (by positivity) hlt
    have hu : ulpExp (a * 1000) = -1074 := by
      unfold ulpExp; exact max_eq_right (by omega)
    obtain ⟨z, hz⟩ := roundMag_div_min a
    rw [hr] at hz
    have hint : a * 1000 / pow2 (ulpExp (a * 1000)) = ((z * 1000 : ℤ) : ℚ) := by
      rw [hu, mul_div_right_comm, hz]; push_cast; ring
    rw [roundMag_eq_self_of_int hint, he, mul_div_cancel_left₀ _ (by norm_num)]

/-- The radius of the program, `(d * 1000) / 2`, against `d * 500`: both are the same double,
unless `d * 1000` overflows while `d * 500`, of magnitude at least `2 ^ 1023`, does not. -/
theorem mul_1000_div_2 {d : Double} (hd : IsDouble d) :
    (d * 1000) / 2 = d * 500 ∨
      ∃ (s : Bool) (w : ℚ), (d * 1000) / 2 = inf s ∧ d * 500 = fin w ∧ d * 1000 = inf s ∧
        pow2 1023 ≤ |w| ∧ decide (w < 0) = s := by
  rw [lit_1000_fin, lit_500_fin, lit_2_fin]
  cases d with
  | nan => left; rfl
  | inf s => left; cases s <;> decide!
  | zero s => left; cases s <;> decide!
  | fin q =>
    obtain ⟨hq0, hr, hlt⟩ := hd.fin_spec
    have ha : 0 < |q| := abs_pos.mpr hq0
    have hmin : pow2 (-1074) ≤ |q| := pow2_min_le_of_roundMag_eq ha hr
    have hx : fin q * fin 1000 = ofMag (decide (q < 0)) (roundMag (|q| * 1000)) :=
      round_mul_pos q (by norm_num)
    have hy : fin q * fin 500 = ofMag (decide (q < 0)) (roundMag (|q| * 500)) :=
      round_mul_pos q (by norm_num)
    have hvge : pow2 (-1074) ≤ roundMag (|q| * 1000) :=
      pow2_le_roundMag le_rfl (by linarith)
    have hvpos : 0 < roundMag (|q| * 1000) := lt_of_lt_of_le (pow2_pos _) hvge
    have hwge : pow2 (-1074) ≤ roundMag (|q| * 500) :=
      pow2_le_roundMag le_rfl (by linarith)
    rw [hx, hy]
    by_cases hov : pow2 1024 ≤ roundMag (|q| * 1000)
    · rw [ofMag_of_ge _ hov]
      have hdiv : inf (decide (q < 0)) / fin 2 = inf (decide (q < 0)) := by
        cases decide (q < 0) <;> decide!
      rw [hdiv]
      -- the five-hundredfold is in the normal range
      have hbig : pow2 1023 ≤ |q| * 1000 := by
        by_contra hc
        push_neg at hc
        have := roundMag_le_pow2 (by positivity) (by norm_num) hc.le
        exact absurd (lt_of_le_of_lt this (pow2_lt_pow2 (by norm_num))) (not_lt.mpr hov)
      have h500 : pow2 1022 ≤ |q| * 500 := by
        have : pow2 1023 = 2 * pow2 1022 := pow2_double (by norm_num)
        rw [this] at hbig; linarith
      have hfl : (1022 : ℤ) ≤ floorLog2 (|q| * 500) := le_floorLog2_of_le h500
      have hsc : roundMag (|q| * 1000) = 2 * roundMag (|q| * 500) := by
        have he : |q| * 1000 = 2 * (|q| * 500) := by ring
        rw [he, roundMag_two_mul (by positivity) (by omega)]
      have hw1023 : pow2 1023 ≤ roundMag (|q| * 500) := by
        have : pow2 1024 = 2 * pow2 1023 := pow2_double (by norm_num)
        rw [this, hsc] at hov; linarith
      by_cases hov2 : pow2 1024 ≤ roundMag (|q| * 500)
      · left; rw [ofMag_of_ge _ hov2]
      · right
        have hw0 : roundMag (|q| * 500) ≠ 0 := (lt_of_lt_of_le (pow2_pos _) hw1023).ne'
        refine ⟨decide (q < 0), _, rfl, ofMag_of_lt _ hw0 (not_le.mp hov2), rfl, ?_, ?_⟩
        · have : |if decide (q < 0) = true then -roundMag (|q| * 500) else roundMag (|q| * 500)|
              = roundMag (|q| * 500) := by
            have hnn : 0 ≤ roundMag (|q| * 500) := (lt_of_lt_of_le (pow2_pos _) hw1023).le
            split_ifs
            · rw [abs_neg, abs_of_nonneg hnn]
            · exact abs_of_nonneg hnn
          rw [this]; exact hw1023
        · have hpos : 0 < roundMag (|q| * 500) := lt_of_lt_of_le (pow2_pos _) hw1023
          by_cases hneg : q < 0
          · simp [hneg, hpos]
          · simp [hneg, hpos.le]
    · left
      rw [ofMag_of_lt _ hvpos.ne' (not_le.mp hov)]
      have hdiv : ∀ s : Bool, ∀ v : ℚ, 0 < v →
          fin (if s = true then -v else v) / fin 2 = ofMag s (roundMag (v / 2)) := by
        intro s v hv
        have : (if s = true then -v else v) / 2 = if s = true then -(v / 2) else v / 2 := by
          split_ifs <;> ring
        show round ((if s = true then -v else v) / 2) = _
        rw [this, round_signed s (by positivity)]
      rw [hdiv _ _ hvpos, roundMag_half_thousand ha hr]

end Double

namespace Double

theorem lit_1000 : (1000.0 : Double) = 1000 := by decide!

theorem lit_2 : (2.0 : Double) = 2 := by decide!

theorem lit_3000 : (3000.0 : Double) = 3000 := by decide!

theorem lit_4 : (4.0 : Double) = 4 := by decide!

theorem lit_3 : (3.0 : Double) = 3 := by decide!

/-- The correctly rounded square is the product. -/
theorem powRounded_two_eq_mul (x : Double) : powRounded x 2 = x * x := by
  cases x with
  | nan => rfl
  | inf s => cases s <;> rfl
  | zero s => cases s <;> rfl
  | fin q => show Double.round (q ^ 2) = Double.round (q * q); rw [sq]

theorem abs_signed (s : Bool) {v : ℚ} (hv : 0 ≤ v) : |if s = true then -v else v| = v := by
  split_ifs
  · rw [abs_neg, abs_of_nonneg hv]
  · exact abs_of_nonneg hv

/-- The square of a finite double of magnitude at least `2 ^ 1023` overflows. -/
theorem mul_self_of_large {w : ℚ} (hw : pow2 1023 ≤ |w|) : fin w * fin w = inf false := by
  show round (w * w) = inf false
  have h1 : pow2 1024 ≤ w * w := by
    have h2 : pow2 1024 ≤ pow2 1023 * pow2 1023 := by
      rw [← pow2_add]; exact pow2_le_pow2 (by norm_num)
    have h3 : pow2 1023 * pow2 1023 ≤ |w| * |w| :=
      mul_le_mul hw hw (pow2_pos _).le (abs_nonneg w)
    rw [abs_mul_abs_self] at h3
    exact le_trans h2 h3
  have hpos : 0 < w * w := lt_of_lt_of_le (pow2_pos _) h1
  unfold round
  rw [abs_of_pos hpos, ofMag_of_ge _ (pow2_le_roundMag (by norm_num) h1)]
  simp [not_lt.mpr hpos.le]

/-- The cube of a finite double of magnitude at least `2 ^ 1023` overflows, keeping the sign. -/
theorem powRounded_three_of_large {w : ℚ} (hw : pow2 1023 ≤ |w|) :
    powRounded (fin w) 3 = inf (decide (w < 0)) := by
  show round (w ^ 3) = _
  have h1 : pow2 1024 ≤ |w ^ 3| := by
    have h2 : pow2 1024 = 2 * pow2 1023 := pow2_double (by norm_num)
    have hw2 : (2 : ℚ) ≤ |w| := by
      have : pow2 1 = 2 := by rw [pow2_eq]; norm_num
      rw [← this]; exact le_trans (pow2_le_pow2 (by norm_num)) hw
    have hsq : (2 : ℚ) ≤ |w| * |w| := by nlinarith
    have h3 : 2 * |w| ≤ |w| * |w| * |w| := mul_le_mul_of_nonneg_right hsq (abs_nonneg w)
    have h4 : |w ^ 3| = |w| * |w| * |w| := by rw [abs_pow]; ring
    rw [h4, h2]; linarith
  have hs : decide (w ^ 3 < 0) = decide (w < 0) :=
    decide_eq_decide.mpr (Odd.pow_neg_iff (by decide))
  unfold round
  rw [ofMag_of_ge _ (pow2_le_roundMag (by norm_num) h1), hs]

/-- The squared radius is the same whether the radius is `(d * 1000) / 2` or `d * 500`. -/
theorem radius_sq_eq {d : Double} (hd : IsDouble d) :
    ((d * 1000) / 2) * ((d * 1000) / 2) = (d * 500) * (d * 500) := by
  rcases mul_1000_div_2 hd with h | ⟨s, w, h1, h2, _, h3, _⟩
  · rw [h]
  · rw [h1, h2, mul_self_of_large h3]
    cases s <;> rfl

/-- The correctly rounded power has the special cases of the C standard. -/
theorem powRounded_cubeSpecialCases : CubeSpecialCases powRounded :=
  ⟨fun s => by cases s <;> rfl, fun s => by cases s <;> rfl,
    fun _ _ hw => powRounded_three_of_large hw⟩

/-- The cubed radius is the same whether the radius is `(d * 1000) / 2` or `d * 500`, for every
`pow` with the special cases of the C standard. -/
theorem radius_cube_eq {pow : Double → Nat → Double} (hp : CubeSpecialCases pow) {d : Double}
    (hd : IsDouble d) : pow ((d * 1000) / 2) 3 = pow (d * 500) 3 := by
  rcases mul_1000_div_2 hd with h | ⟨s, w, h1, h2, _, h3, h4⟩
  · rw [h]
  · have hw : IsDouble (fin w) := by rw [← h2]; exact isDouble_mul _ _
    rw [h1, h2, hp.2.1 s, hp.2.2 w hw h3, h4]

/-- Without overflow of `d * 1000` the radius is `d * 500`. -/
theorem radius_eq_of_isFinite {d : Double} (hd : IsDouble d)
    (hf : (d * 1000).isFinite = true) : (d * 1000) / 2 = d * 500 := by
  rcases mul_1000_div_2 hd with h | ⟨s, w, _, _, h3, _, _⟩
  · exact h
  · rw [h3] at hf; simp [isFinite] at hf

end Double

namespace Double

theorem ofMag_ne_zero (s t : Bool) {v : ℚ} (hv : v ≠ 0) : ofMag s v ≠ zero t := by
  unfold ofMag
  rw [if_neg hv]
  split_ifs <;> simp

theorem signed_abs (v : ℚ) : (if decide (v < 0) = true then -|v| else |v|) = v := by
  by_cases h : v < 0
  · simp [h, abs_of_neg h]
  · simp [h, abs_of_nonneg (not_lt.mp h)]

theorem signed_div_two (s : Bool) {v : ℚ} (hv : 0 < v) :
    fin (if s = true then -v else v) / fin 2 = ofMag s (roundMag (v / 2)) := by
  have : (if s = true then -v else v) / 2 = if s = true then -(v / 2) else v / 2 := by
    split_ifs <;> ring
  show round ((if s = true then -v else v) / 2) = _
  rw [this, round_signed s (by positivity)]

/-- Doubling a double magnitude is exact (before any overflow). -/
theorem roundMag_mul_two_of_eq {a : ℚ} (ha : 0 < a) (hr : roundMag a = a) :
    roundMag (a * 2) = a * 2 := by
  by_cases hn : -1074 ≤ floorLog2 a - 52
  · rw [mul_comm, roundMag_two_mul ha hn, hr]
  · obtain ⟨z, hz⟩ := roundMag_div_min a
    rw [hr, div_eq_iff (pow2_ne_zero _)] at hz
    have hw : a * 2 = ((z * 2 : ℤ) : ℚ) * pow2 (-1074) := by
      push_cast; rw [hz]; ring
    apply roundMag_eq_self_of_mul hw
    unfold ulpExp
    apply max_le _ le_rfl
    have : floorLog2 (a * 2) = floorLog2 a + 1 := by
      rw [mul_comm]; exact floorLog2_two_mul ha
    omega

/-- Averaging a double with itself and multiplying by the density gives the same as multiplying
the double by the density: the sum `V + V` is exact, and when it overflows so does `3000 * V`. -/
theorem density_mul_mean_self {V : Double} (hV : IsDouble V) :
    (3000 : Double) * ((V + V) / 2) = 3000 * V := by
  rw [lit_3000_fin, lit_2_fin]
  cases V with
  | nan => rfl
  | inf s => cases s <;> decide!
  | zero s => cases s <;> decide!
  | fin v =>
    obtain ⟨hv0, hr, hlt⟩ := hV.fin_spec
    have ha : 0 < |v| := abs_pos.mpr hv0
    have hadd : fin v + fin v = ofMag (decide (v < 0)) (roundMag (|v| * 2)) := by
      show addFinite (fin v) (fin v) = _
      unfold addFinite
      have hne : val (fin v) + val (fin v) ≠ 0 := by
        show v + v ≠ 0
        intro h; apply hv0; linarith
      rw [if_neg hne]
      show round (v + v) = _
      rw [← mul_two, round_mul_pos v (by norm_num)]
    rw [hadd, roundMag_mul_two_of_eq ha hr]
    by_cases hov : pow2 1024 ≤ |v| * 2
    · rw [ofMag_of_ge _ hov]
      have h3 : fin 3000 * fin v = inf (decide (v < 0)) := by
        show round (3000 * v) = _
        rw [mul_comm, round_mul_pos v (by norm_num)]
        exact ofMag_of_ge _ (pow2_le_roundMag (by norm_num) (by linarith))
      rw [h3]
      cases decide (v < 0) <;> decide!
    · have h2 : (0 : ℚ) < |v| * 2 := by positivity
      rw [ofMag_of_lt _ h2.ne' (not_le.mp hov), signed_div_two _ h2,
        mul_div_cancel_right₀ _ (by norm_num), hr, ofMag_of_lt _ ha.ne' hlt, signed_abs]

end Double

/-! ## Addition of doubles -/

theorem Double.hAdd_eq (x y : Double) : x + y = Double.add x y := rfl

theorem Double.add_commutes (x y : Double) : x + y = y + x := by
  have hf : ∀ u v : Double, Double.addFinite u v = Double.addFinite v u := by
    intro u v
    unfold Double.addFinite
    rw [Rat.add_comm (Double.val u) (Double.val v), Bool.and_comm]
  rw [Double.hAdd_eq, Double.hAdd_eq]
  cases x <;> cases y <;> simp only [Double.add, hf]
  rename_i s t
  cases s <;> cases t <;> rfl

theorem Double.add_of_isFinite {x y : Double} (hx : x.isFinite = true) (hy : y.isFinite = true) :
    x + y = Double.addFinite x y := by
  rw [Double.hAdd_eq]
  cases x <;> cases y <;> simp_all [Double.add, Double.isFinite]

theorem Double.val_eq_zero_of_isNegZero {x : Double} (h : x.isNegZero = true) : x.val = 0 := by
  cases x <;> simp_all [Double.isNegZero, Double.val]

/-- An exact addition behaves like the addition of the exact values: the value of the sum is the
sum of the values, and the sum is `-0.0` only when both operands are. -/
theorem Double.exactAdd_spec {x y : Double} (h : Double.ExactAdd x y) :
    (x + y).isFinite = true ∧ (x + y).val = x.val + y.val ∧
      (x + y).isNegZero = (x.isNegZero && y.isNegZero) := by
  obtain ⟨hx, hy, hf, hv⟩ := h
  refine ⟨hf, hv, ?_⟩
  rw [Double.add_of_isFinite hx hy] at hf hv ⊢
  unfold Double.addFinite at hf hv ⊢
  by_cases h0 : x.val + y.val = 0
  · rw [if_pos h0]
    cases hb : (x.isNegZero && y.isNegZero) <;> rfl
  · rw [if_neg h0] at hf hv ⊢
    have hr : (x.isNegZero && y.isNegZero) = false := by
      by_contra hc
      rw [Bool.not_eq_false, Bool.and_eq_true] at hc
      rw [Double.val_eq_zero_of_isNegZero hc.1, Double.val_eq_zero_of_isNegZero hc.2] at h0
      exact h0 (by norm_num)
    rw [hr]
    generalize Double.round (x.val + y.val) = r at hf hv
    cases r with
    | nan => simp [Double.isFinite] at hf
    | inf s => simp [Double.isFinite] at hf
    | zero s => exact absurd hv.symm h0
    | fin q => rfl

/-- Two groupings of a sum of three doubles agree when the two inner additions are exact. -/
theorem Double.add_assoc_of_exact {x y z : Double} (hxy : Double.ExactAdd x y)
    (hyz : Double.ExactAdd y z) : (x + y) + z = x + (y + z) := by
  obtain ⟨hf1, hv1, hn1⟩ := Double.exactAdd_spec hxy
  obtain ⟨hf2, hv2, hn2⟩ := Double.exactAdd_spec hyz
  rw [Double.add_of_isFinite hf1 hyz.2.1, Double.add_of_isFinite hxy.1 hf2]
  unfold Double.addFinite
  rw [hv1, hv2, hn1, hn2, Rat.add_assoc, Bool.and_assoc]

/-! ## The constructor -/

theorem Asteroid.fromJson_fields {pow : Double → Nat → Double} {stod : String → Option Double}
    {j : NeoJson} {a : Asteroid} (h : Asteroid.fromJson pow stod j = some a) :
    a.diameter = j.estimated_diameter_min ∧ a.minDiameterKm = j.estimated_diameter_min ∧
      a.maxDiameterKm = j.estimated_diameter_max ∧ a.mass = Asteroid.calculateMass pow j := by
  unfold Asteroid.fromJson at h
  split at h
  · exact absurd h (by simp)
  · split at h
    · cases h; exact ⟨rfl, rfl, rfl, rfl⟩
    · exact absurd h (by simp)

/-! ## Properties of the combination `operator+` -/

/-- C1: every summed numeric field of `a + b` is the binary64 sum of the fields of `a` and of
`b`; on the scenario of the specification the minimum diameters 0.2 and 0.15 give 0.35 and the
velocities 3.0 and 2.5 give 5.5. -/
theorem combine_sums_fields (a b : Asteroid) :
    (a.operatorPlus b).minDiameterKm = a.minDiameterKm + b.minDiameterKm ∧
    (a.operatorPlus b).maxDiameterKm = a.maxDiameterKm + b.maxDiameterKm ∧
    (a.operatorPlus b).mass = a.mass + b.mass ∧
    (a.operatorPlus b).relativeVelocityKmPerS =
      a.relativeVelocityKmPerS + b.relativeVelocityKmPerS ∧
    (a.operatorPlus b).missDistanceKm = a.missDistanceKm + b.missDistanceKm ∧
    (scenarioA.operatorPlus scenarioB).minDiameterKm = 0.35 ∧
    (scenarioA.operatorPlus scenarioB).relativeVelocityKmPerS = 5.5 :=
  ⟨rfl, rfl, rfl, rfl, rfl, by decide!, by decide!⟩

/-- C2: the hazard flag of `a + b` is true exactly when the combined minimum diameter exceeds 280
or the combined velocity exceeds 5.0, and it does not depend on the flags of `a` and `b`. -/
theorem combine_recomputes_hazard (a b : Asteroid) :
    ((a.operatorPlus b).isDangerous = true ↔
      (Double.gt (a.operatorPlus b).minDiameterKm 280 = true ∨
        Double.gt (a.operatorPlus b).relativeVelocityKmPerS 5.0 = true)) ∧
    (∀ fa fb : Bool,
      (Asteroid.operatorPlus { a with isDangerous := fa } { b with isDangerous := fb }).isDangerous
        = (a.operatorPlus b).isDangerous) ∧
    (scenarioA.operatorPlus scenarioB).isDangerous = true := by
  refine ⟨?_, fun _ _ => rfl, by decide!⟩
  simp [Asteroid.operatorPlus]

/-- C3: `a + b` takes `id`, `nasa_jpl_url`, `absolute_magnitude` and `closeApproachDate` from
the left operand `a`, whatever `b` is. -/
theorem combine_inherits_identity (a b : Asteroid) :
    ((a.operatorPlus b).id = a.id ∧
      (a.operatorPlus b).nasa_jpl_url = a.nasa_jpl_url ∧
      (a.operatorPlus b).absolute_magnitude = a.absolute_magnitude ∧
      (a.operatorPlus b).closeApproachDate = a.closeApproachDate) ∧
    (∀ b2 : Asteroid,
      (a.operatorPlus b2).id = (a.operatorPlus b).id ∧
      (a.operatorPlus b2).nasa_jpl_url = (a.operatorPlus b).nasa_jpl_url ∧
      (a.operatorPlus b2).absolute_magnitude = (a.operatorPlus b).absolute_magnitude ∧
      (a.operatorPlus b2).closeApproachDate = (a.operatorPlus b).closeApproachDate) :=
  ⟨⟨rfl, rfl, rfl, rfl⟩, fun _ => ⟨rfl, rfl, rfl, rfl⟩⟩

/-! ## Claims on commutativity and associativity -/

/-- C4, as stated, fails: for the three asteroids that the constructor builds from records
with minimum diameters 0.1, 0.2 and 0.3 km, the two groupings of the combination give different
minimum diameters, 0.6000000000000001 and 0.6. -/
theorem combine_not_associative :
    Asteroid.fromJson Double.powRounded stodTable recordP = some asteroidP ∧
    Asteroid.fromJson Double.powRounded stodTable recordQ = some asteroidQ ∧
    Asteroid.fromJson Double.powRounded stodTable recordR = some asteroidR ∧
    ((asteroidP.operatorPlus asteroidQ).operatorPlus asteroidR).minDiameterKm
      = 0.6000000000000001 ∧
    (asteroidP.operatorPlus (asteroidQ.operatorPlus asteroidR)).minDiameterKm = 0.6 ∧
    ((asteroidP.operatorPlus asteroidQ).operatorPlus asteroidR).minDiameterKm ≠
      (asteroidP.operatorPlus (asteroidQ.operatorPlus asteroidR)).minDiameterKm := by
  decide!

/-- C4, amended: on every summed numeric field the combination is commutative, and the two
groupings of three asteroids agree on a field whenever the additions `a + b` and `b + c` of that
field are exact; the combination is not commutative on `id`. -/
theorem combine_comm_assoc_exact (a b c : Asteroid) :
    ((a.operatorPlus b).minDiameterKm = (b.operatorPlus a).minDiameterKm ∧
      (a.operatorPlus b).maxDiameterKm = (b.operatorPlus a).maxDiameterKm ∧
      (a.operatorPlus b).mass = (b.operatorPlus a).mass ∧
      (a.operatorPlus b).relativeVelocityKmPerS = (b.operatorPlus a).relativeVelocityKmPerS ∧
      (a.operatorPlus b).missDistanceKm = (b.operatorPlus a).missDistanceKm) ∧
    ((Double.ExactAdd a.minDiameterKm b.minDiameterKm →
        Double.ExactAdd b.minDiameterKm c.minDiameterKm →
        ((a.operatorPlus b).operatorPlus c).minDiameterKm =
          (a.operatorPlus (b.operatorPlus c)).minDiameterKm) ∧
      (Double.ExactAdd a.maxDiameterKm b.maxDiameterKm →
        Double.ExactAdd b.maxDiameterKm c.maxDiameterKm →
        ((a.operatorPlus b).operatorPlus c).maxDiameterKm =
          (a.operatorPlus (b.operatorPlus c)).maxDiameterKm) ∧
      (Double.ExactAdd a.mass b.mass → Double.ExactAdd b.mass c.mass →
        ((a.operatorPlus b).operatorPlus c).mass = (a.operatorPlus (b.operatorPlus c)).mass) ∧
      (Double.ExactAdd a.relativeVelocityKmPerS b.relativeVelocityKmPerS →
        Double.ExactAdd b.relativeVelocityKmPerS c.relativeVelocityKmPerS →
        ((a.operatorPlus b).operatorPlus c).relativeVelocityKmPerS =
          (a.operatorPlus (b.operatorPlus c)).relativeVelocityKmPerS) ∧
      (Double.ExactAdd a.missDistanceKm b.missDistanceKm →
        Double.ExactAdd b.missDistanceKm c.missDistanceKm →
        ((a.operatorPlus b).operatorPlus c).missDistanceKm =
          (a.operatorPlus (b.operatorPlus c)).missDistanceKm)) ∧
    (scenarioA.operatorPlus scenarioB).id ≠ (scenarioB.operatorPlus scenarioA).id := by
  refine ⟨⟨?_, ?_, ?_, ?_, ?_⟩, ⟨?_, ?_, ?_, ?_, ?_⟩, by decide⟩
  · exact Double.add_commutes _ _
  · exact Double.add_commutes _ _
  · exact Double.add_commutes _ _
  · exact Double.add_commutes _ _
  · exact Double.add_commutes _ _
  · exact fun h1 h2 => Double.add_assoc_of_exact h1 h2
  · exact fun h1 h2 => Double.add_assoc_of_exact h1 h2
  · exact fun h1 h2 => Double.add_assoc_of_exact h1 h2
  · exact fun h1 h2 => Double.add_assoc_of_exact h1 h2
  · exact fun h1 h2 => Double.add_assoc_of_exact h1 h2

/-- Witness of `combine_comm_assoc_exact`: the fields 0.25, 0.5 and 1.0 add exactly. -/
theorem combine_comm_assoc_exact_witness :
    Double.ExactAdd (0.25 : Double) 0.5 ∧ Double.ExactAdd (0.5 : Double) 1.0 ∧
      (((uniformAsteroid "p" 0.25).operatorPlus (uniformAsteroid "q" 0.5)).operatorPlus
          (uniformAsteroid "r" 1.0)).minDiameterKm =
        ((uniformAsteroid "p" 0.25).operatorPlus
          ((uniformAsteroid "q" 0.5).operatorPlus (uniformAsteroid "r" 1.0))).minDiameterKm :=
  ⟨by decide!, by decide!,
    (combine_comm_assoc_exact (uniformAsteroid "p" 0.25) (uniformAsteroid "q" 0.5)
      (uniformAsteroid "r" 1.0)).2.1.1 (by decide!) (by decide!)⟩

/-! ## Surface gravity, escape velocity and mass estimate -/

/-- C5: for all double diameters `calculateMass` is the density 3000 times the mean of the two
sphere volumes `(4/3) * pi * (min * 500)^3` and `(4/3) * pi * (max * 500)^3`, the cubes being
calls of `pow`; for equal diameters it is the density times the one sphere volume, and for zero
diameters it is zero (a zero of either sign gives a zero).  This holds for every `pow` that has
the special cases of the C standard, whatever its rounding. -/
theorem mass_estimate_formula (pow : Double → Nat → Double) (j : NeoJson)
    (hp : Double.CubeSpecialCases pow) (hmin : Double.IsDouble j.estimated_diameter_min)
    (hmax : Double.IsDouble j.estimated_diameter_max) :
    Asteroid.calculateMass pow j =
        3000 * ((4 / 3 * M_PI * pow (j.estimated_diameter_min * 500) 3 +
          4 / 3 * M_PI * pow (j.estimated_diameter_max * 500) 3) / 2) ∧
    (j.estimated_diameter_min = j.estimated_diameter_max →
      Asteroid.calculateMass pow j =
        3000 * (4 / 3 * M_PI * pow (j.estimated_diameter_min * 500) 3)) ∧
    (j.estimated_diameter_min = 0 → j.estimated_diameter_max = 0 →
      Asteroid.calculateMass pow j = 0) ∧
    (∀ s t : Bool, j.estimated_diameter_min = Double.zero s →
      j.estimated_diameter_max = Double.zero t →
      Asteroid.calculateMass pow j = Double.zero (s && t)) := by
  have h1 : Asteroid.calculateMass pow j =
      3000 * ((4 / 3 * M_PI * pow (j.estimated_diameter_min * 500) 3 +
        4 / 3 * M_PI * pow (j.estimated_diameter_max * 500) 3) / 2) := by
    unfold Asteroid.calculateMass
    simp only [Double.lit_2, Double.lit_1000, Double.lit_3000, Double.lit_4, Double.lit_3,
      Double.radius_cube_eq hp hmin, Double.radius_cube_eq hp hmax]
  have hz : ∀ s : Bool, Double.zero s * 500 = Double.zero s := by
    intro s; cases s <;> decide!
  have h0s : ∀ s t : Bool, j.estimated_diameter_min = Double.zero s →
      j.estimated_diameter_max = Double.zero t →
      Asteroid.calculateMass pow j = Double.zero (s && t) := by
    intro s t h0 h0'
    rw [h1, h0, h0', hz, hz, hp.1, hp.1]
    cases s <;> cases t <;> decide!
  refine ⟨h1, ?_, ?_, h0s⟩
  · intro he
    rw [h1, ← he]
    exact Double.density_mul_mean_self (Double.isDouble_mul _ _)
  · intro h0 h0'
    have e0 : (0 : Double) = Double.zero false := by decide!
    rw [e0] at h0 h0' ⊢
    exact h0s false false h0 h0'

/-- Witness of `mass_estimate_formula`, with the correctly rounded power for `pow`: the record
with both diameters 1 km, whose mass estimate is 1570796326794.8965 kg (the cube of 500 is
exact), and a record with both diameters zero. -/
theorem mass_estimate_formula_witness :
    Double.CubeSpecialCases Double.powRounded ∧
    Double.IsDouble recordUnit.estimated_diameter_min ∧
    Double.IsDouble recordUnit.estimated_diameter_max ∧
    Asteroid.calculateMass Double.powRounded recordUnit = 1570796326794.8965 ∧
    Asteroid.calculateMass Double.powRounded recordUnit =
      3000 * (4 / 3 * M_PI *
        Double.powRounded (recordUnit.estimated_diameter_min * 500) 3) ∧
    Asteroid.calculateMass Double.powRounded recordZero = 0 :=
  ⟨Double.powRounded_cubeSpecialCases, by decide!, by decide!, by decide!,
    (mass_estimate_formula Double.powRounded recordUnit Double.powRounded_cubeSpecialCases
      (by decide!) (by decide!)).2.1 (by decide!),
    (mass_estimate_formula Double.powRounded recordZero Double.powRounded_cubeSpecialCases
      (by decide!) (by decide!)).2.2.1 (by decide!) (by decide!)⟩

/-- C6, as stated, fails: a body of diameter 1e-170 km has a positive diameter, but its squared
radius underflows to zero, so that the division of `calculateSurfaceGravity` is by zero (and the
result is infinite). -/
theorem surface_gravity_zero_divisor :
    Double.IsDouble tinyBody.diameter ∧ Double.gt tinyBody.diameter 0 = true ∧
    Double.gt tinyBody.mass 0 = true ∧
    ((tinyBody.diameter * 1000) / 2.0) * ((tinyBody.diameter * 1000) / 2.0) = Double.zero false ∧
    tinyBody.calculateSurfaceGravity = Double.inf false := by
  decide!

/-- C6, amended: for every double diameter `d` and every mass `m`, `calculateSurfaceGravity`
returns `6.67430e-11 * m / (d * 500)^2`, the square being the product of `d * 500` with itself;
the division is by a non-zero value when `d > 1e-150` (a squared radius that does not
underflow). -/
theorem surface_gravity_formula (b : SpaceBody) (hd : Double.IsDouble b.diameter) :
    b.calculateSurfaceGravity =
      6.67430e-11 * b.mass / ((b.diameter * 500) * (b.diameter * 500)) ∧
    (Double.gt b.diameter 1e-150 = true →
      ∀ s : Bool,
        ((b.diameter * 1000) / 2.0) * ((b.diameter * 1000) / 2.0) ≠ Double.zero s) := by
  constructor
  · unfold SpaceBody.calculateSurfaceGravity
    simp only [Double.lit_2, Double.radius_sq_eq hd]
  · intro hgt s
    rw [Double.lit_2, Double.radius_sq_eq hd]
    have hc : (1e-150 : Double) = Double.fin (Double.val 1e-150) := by decide!
    have hcge : pow2 (-499) ≤ Double.val 1e-150 := by decide!
    rw [hc] at hgt
    generalize Double.val 1e-150 = c at hgt hcge
    have hcpos : 0 < c := lt_of_lt_of_le (pow2_pos _) hcge
    rw [Double.lit_500_fin]
    cases hdv : b.diameter with
    | nan => rw [hdv] at hgt; simp [Double.gt] at hgt
    | inf t =>
      rw [hdv] at hgt
      cases t
      · cases s <;> decide!
      · simp [Double.gt] at hgt
    | zero t =>
      rw [hdv] at hgt
      simp [Double.gt, Double.val, not_lt.mpr hcpos.le] at hgt
    | fin q =>
      rw [hdv] at hgt
      have hq : c < q := by simpa [Double.gt, Double.val] using hgt
      have hqpos : 0 < q := lt_trans hcpos hq
      have hmul : Double.fin q * Double.fin 500 =
          Double.ofMag false (Double.roundMag (q * 500)) := by
        have := Double.round_mul_pos q (show (0 : ℚ) < 500 by norm_num)
        rw [abs_of_pos hqpos] at this
        simpa [not_lt.mpr hqpos.le] using this
      have hw : pow2 (-491) ≤ Double.roundMag (q * 500) := by
        apply Double.pow2_le_roundMag (by norm_num)
        have h1 : pow2 (-491) = pow2 (-499) * pow2 8 := by
          have := pow2_add (-499) 8
          norm_num at this
          exact this
        have h2 : pow2 8 = 256 := by rw [pow2_eq]; norm_num
        rw [h1, h2]
        nlinarith
      rw [hmul]
      generalize Double.roundMag (q * 500) = w at hw
      have hwpos : 0 < w := lt_of_lt_of_le (pow2_pos _) hw
      by_cases hov : pow2 1024 ≤ w
      · rw [Double.ofMag_of_ge _ hov]; cases s <;> decide
      · rw [Double.ofMag_of_lt _ hwpos.ne' (not_le.mp hov)]
        show Double.round (w * w) ≠ _
        have hww : pow2 (-1074) ≤ w * w := by
          have h1 : pow2 (-1074) ≤ pow2 (-491) * pow2 (-491) := by
            rw [← pow2_add]; exact pow2_le_pow2 (by norm_num)
          exact le_trans h1 (mul_le_mul hw hw (pow2_pos _).le hwpos.le)
        have hpos : 0 < w * w := by positivity
        unfold Double.round
        rw [abs_of_pos hpos]
        exact Double.ofMag_ne_zero _ _
          (lt_of_lt_of_le (pow2_pos _) (Double.pow2_le_roundMag le_rfl hww)).ne'

/-- Witness of `surface_gravity_formula`: the Earth, of surface gravity 9.819973426224687. -/
theorem surface_gravity_formula_witness :
    Double.IsDouble earth.diameter ∧ Double.gt earth.diameter 1e-150 = true ∧
      earth.toSpaceBody.calculateSurfaceGravity = 9.819973426224687 ∧
      earth.toSpaceBody.calculateSurfaceGravity =
        6.67430e-11 * earth.mass / ((earth.diameter * 500) * (earth.diameter * 500)) ∧
      ((earth.diameter * 1000) / 2.0) * ((earth.diameter * 1000) / 2.0) ≠ Double.zero false :=
  ⟨by decide!, by decide!, by decide!, (surface_gravity_formula earth.toSpaceBody (by decide!)).1,
    (surface_gravity_formula earth.toSpaceBody (by decide!)).2 (by decide!) false⟩

/-- C7, as stated, fails: for the diameter 2e305 km and the mass 1e300 kg, both positive, the
product `d * 1000` overflows, `calculateEscapeVelocity` returns 0, and the formula with `d * 500`
does not. -/
theorem escape_velocity_overflow :
    Double.IsDouble hugePlanet.diameter ∧ Double.gt hugePlanet.diameter 0 = true ∧
    Double.gt hugePlanet.mass 0 = true ∧
    hugePlanet.calculateEscapeVelocity = 0 ∧
    hugePlanet.diameter * 1000 = Double.inf false ∧
    Double.sqrt (2 * 6.67430e-11 * hugePlanet.mass / (hugePlanet.diameter * 500)) / 1000
      = 1.1553614153155714e-12 ∧
    hugePlanet.calculateEscapeVelocity ≠
      Double.sqrt (2 * 6.67430e-11 * hugePlanet.mass / (hugePlanet.diameter * 500)) / 1000 := by
  decide!

/-- C7, amended: for every planet whose diameter `d` is a double such that `d * 1000` does not
overflow, `calculateEscapeVelocity` returns `sqrt(2 * 6.67430e-11 * m / (d * 500)) / 1000`. -/
theorem escape_velocity_formula (p : Planet) (hd : Double.IsDouble p.diameter)
    (hf : (p.diameter * 1000).isFinite = true) :
    p.calculateEscapeVelocity =
      Double.sqrt (2 * 6.67430e-11 * p.mass / (p.diameter * 500)) / 1000 := by
  unfold Planet.calculateEscapeVelocity
  simp only [Double.lit_2, Double.lit_1000, Double.radius_eq_of_isFinite hd hf]

/-- Witness of `escape_velocity_formula`: the Earth, of escape velocity 11.18597789184991. -/
theorem escape_velocity_formula_witness :
    Double.IsDouble earth.diameter ∧ (earth.diameter * 1000).isFinite = true ∧
      earth.calculateEscapeVelocity = 11.18597789184991 ∧
      earth.calculateEscapeVelocity =
        Double.sqrt (2 * 6.67430e-11 * earth.mass / (earth.diameter * 500)) / 1000 :=
  ⟨by decide!, by decide!, by decide!,
    escape_velocity_formula earth (by decide!) (by decide!)⟩

/-! ## Impact energy -/

/-- C8: `calculateImpactEnergy` returns `0.5 * m * (v * 1000)^2 / 4.184e15`, the square being
the call `pow(v * 1000, 2)` of the code, for every `pow`; wherever that call returns the product
of `v * 1000` with itself, the result is the formula with that product. -/
theorem impact_energy_formula (pow : Double → Nat → Double) (a : Asteroid) :
    a.calculateImpactEnergy pow =
        0.5 * a.mass * pow (a.relativeVelocityKmPerS * 1000) 2 / 4.184e15 ∧
      (pow (a.relativeVelocityKmPerS * 1000) 2 =
          (a.relativeVelocityKmPerS * 1000) * (a.relativeVelocityKmPerS * 1000) →
        a.calculateImpactEnergy pow =
          0.5 * a.mass * ((a.relativeVelocityKmPerS * 1000) * (a.relativeVelocityKmPerS * 1000))
            / 4.184e15) := by
  have h : a.calculateImpactEnergy pow =
      0.5 * a.mass * pow (a.relativeVelocityKmPerS * 1000) 2 / 4.184e15 := by
    unfold Asteroid.calculateImpactEnergy
    rw [Double.lit_1000]
  refine ⟨h, fun hsq => ?_⟩
  rw [h, hsq]

/-- Witness of `impact_energy_formula`: asteroid A of the scenario (3 km/s), for which the square
of 3000 is exact; its impact energy is 60.819551850089205 megatons. -/
theorem impact_energy_formula_witness :
    Double.powRounded (scenarioA.relativeVelocityKmPerS * 1000) 2 =
        (scenarioA.relativeVelocityKmPerS * 1000) * (scenarioA.relativeVelocityKmPerS * 1000) ∧
      scenarioA.calculateImpactEnergy Double.powRounded = 60.819551850089205 ∧
      scenarioA.calculateImpactEnergy Double.powRounded =
        0.5 * scenarioA.mass *
          ((scenarioA.relativeVelocityKmPerS * 1000) * (scenarioA.relativeVelocityKmPerS * 1000))
            / 4.184e15 :=
  ⟨by decide!, by decide!, (impact_energy_formula Double.powRounded scenarioA).2 (by decide!)⟩

/-! ## Invariants of an asteroid -/

/-- C9, evaluated on the scenario of the specification: A and B are built by the constructor
and have `diameter = minDiameterKm`, but `A + B` keeps the diameter 0.2 of A while its minimum
diameter becomes 0.35; in general `a + b` keeps the diameter of `a`. -/
theorem combine_leaves_diameter_stale :
    Asteroid.fromJson Double.powRounded stodTable recordA = some scenarioA ∧
    Asteroid.fromJson Double.powRounded stodTable recordB = some scenarioB ∧
    scenarioA.diameter = scenarioA.minDiameterKm ∧
    scenarioB.diameter = scenarioB.minDiameterKm ∧
    (scenarioA.operatorPlus scenarioB).diameter = 0.2 ∧
    (scenarioA.operatorPlus scenarioB).minDiameterKm = 0.35 ∧
    (scenarioA.operatorPlus scenarioB).diameter ≠
      (scenarioA.operatorPlus scenarioB).minDiameterKm ∧
    (∀ a b : Asteroid, (a.operatorPlus b).diameter = a.diameter) := by
  refine ⟨by decide!, by decide!, rfl, rfl, rfl, by decide!, by decide!, fun _ _ => rfl⟩

/-- C10, as stated, fails: the unit asteroid is built by the constructor and its mass is the
estimate for its diameters, but the mass of its combination with itself is not the estimate for
the combined diameters (twice the mass of a 1 km body, not the mass of a 2 km body).  The cubes
involved, of 500 and of 1000, are exact, so that `pow` returns the correctly rounded power. -/
theorem combine_mass_not_estimate :
    Asteroid.fromJson Double.powRounded stodTable recordUnit = some unitAsteroid ∧
    unitAsteroid.mass = unitAsteroid.estimatedMass Double.powRounded ∧
    (unitAsteroid.operatorPlus unitAsteroid).mass = 3141592653589.793 ∧
    (unitAsteroid.operatorPlus unitAsteroid).estimatedMass Double.powRounded
      = 12566370614359.172 ∧
    (unitAsteroid.operatorPlus unitAsteroid).mass ≠
      (unitAsteroid.operatorPlus unitAsteroid).estimatedMass Double.powRounded := by
  refine ⟨by decide!, by decide!, by decide!, by decide!, by decide!⟩

/-- C10, amended: the mass of an asteroid built by the constructor is the estimate
`calculateMass` of its own minimum and maximum diameters (for every `pow`), and the mass of
`a + b` is the sum of the masses of `a` and `b`. -/
theorem mass_estimated_then_summed :
    (∀ (pow : Double → Nat → Double) (stod : String → Option Double) (j : NeoJson)
        (a : Asteroid),
      Asteroid.fromJson pow stod j = some a →
        a.mass = Asteroid.calculateMass pow j ∧ a.mass = a.estimatedMass pow) ∧
    (∀ a b : Asteroid, (a.operatorPlus b).mass = a.mass + b.mass) := by
  refine ⟨fun pow stod j a h => ?_, fun _ _ => rfl⟩
  obtain ⟨_, h2, h3, h4⟩ := Asteroid.fromJson_fields h
  refine ⟨h4, ?_⟩
  rw [h4]
  unfold Asteroid.estimatedMass Asteroid.calculateMass
  simp only [h2, h3]

/-- Witness of `mass_estimated_then_summed` on the record of asteroid A. -/
theorem mass_estimated_then_summed_witness :
    Asteroid.fromJson Double.powRounded stodTable recordA = some scenarioA ∧
      scenarioA.mass = Asteroid.calculateMass Double.powRounded recordA ∧
      scenarioA.mass = scenarioA.estimatedMass Double.powRounded :=
  ⟨by decide!,
    mass_estimated_then_summed.1 Double.powRounded stodTable recordA scenarioA (by decide!)⟩

/-! ## The two methods with a `pow` that is not correctly rounded -/

/-- With a `pow` that returns the values of glibc 2.36 at the two arguments concerned, the
methods return what the program returns there: the mass estimate for diameters of 2.4207 km is
22281416024811.703 (22281416024811.7 with the correctly rounded cube) and is the density times
the sphere volume with that `pow`; the impact energy of the unit asteroid at 9.4106 km/s is
16623.896776084614, while the formula with the product of `v * 1000` with itself gives
16623.89677608461. -/
theorem methods_with_observed_pow :
    Asteroid.calculateMass Double.powObserved recordProbe = 22281416024811.703 ∧
    Asteroid.calculateMass Double.powObserved recordProbe =
      3000 * (4 / 3 * M_PI *
        Double.powObserved (recordProbe.estimated_diameter_min * 500) 3) ∧
    Asteroid.calculateMass Double.powRounded recordProbe = 22281416024811.7 ∧
    fastUnitAsteroid.calculateImpactEnergy Double.powObserved = 16623.896776084614 ∧
    fastUnitAsteroid.calculateImpactEnergy Double.powObserved =
      0.5 * fastUnitAsteroid.mass *
        Double.powObserved (fastUnitAsteroid.relativeVelocityKmPerS * 1000) 2 / 4.184e15 ∧
    0.5 * fastUnitAsteroid.mass *
        ((fastUnitAsteroid.relativeVelocityKmPerS * 1000) *
          (fastUnitAsteroid.relativeVelocityKmPerS * 1000)) / 4.184e15
      = 16623.89677608461 := by
  decide!

end SpaceBodies
